import Mathlib

/-!
Verification of the Conversation-Analyst earnings-call pipeline.

We give a shallow embedding of the transcript-processing core
(`utils/doc_parser.py`), the metadata and topic extraction chains
(`utils/metadata.py`, `utils/create_topics.py`) and the retrieval
pipeline (`utils/rag.py`), and prove or refute the specified
properties about them.

Text is modelled as `List Char` (Python `str`), machine integers do not
occur, and fallible Python code is embedded in `Except PyErr`.
External collaborators (the LLMs, pydantic validation, the FAISS index)
are parameters of the embedded functions, constrained only by their
documented interface contracts.
-/

namespace ConvAnalyst

/-- Python exception values that the embedded code can raise. -/
inductive PyErr where
  /-- Embeds `IndexError`: list index out of range. -/
  | indexError : PyErr
  /-- Embeds `AttributeError`: attribute lookup failed (e.g. on a plain `dict`). -/
  | attributeError : PyErr
  /-- Embeds `RuntimeError`: raised by `faiss` when the saved index cannot be opened. -/
  | runtimeError : PyErr
  /-- A distinct "index not ready" condition, as posited by the spec
  (section 7 (d)).  The source never produces this value; it exists so that
  the spec's claim can be stated and compared with the code's behaviour. -/
  | indexNotReady : PyErr
deriving DecidableEq, Repr

/-- ASCII uppercase letter, the `[A-Z]` class of the dialogue regex. -/
def isUpperAZ (c : Char) : Bool :=
  decide ('A' ≤ c ∧ c ≤ 'Z')

/-- ASCII lowercase letter. -/
def isLowerAZ (c : Char) : Bool :=
  decide ('a' ≤ c ∧ c ≤ 'z')

/-- The speaker-name character class `[A-Za-z .'-]` of the dialogue regex
in `Pattern_extract` (letters, space, period, apostrophe, hyphen). -/
def isNameChar (c : Char) : Bool :=
  isUpperAZ c || isLowerAZ c || c = ' ' || c = '.' || c = Char.ofNat 39 || c = '-'

/-- Python regex `\s` / `str.strip` whitespace (ASCII range). -/
def isPySpace (c : Char) : Bool :=
  c = ' ' || c = Char.ofNat 9 || c = Char.ofNat 10 || c = Char.ofNat 11 ||
    c = Char.ofNat 12 || c = Char.ofNat 13

/-- Python `str.strip()`: drop whitespace from both ends. -/
def stripChars (l : List Char) : List Char :=
  ((l.dropWhile isPySpace).reverse.dropWhile isPySpace).reverse

/-- Python `str.lower()` (ASCII view, which is all the sources compare). -/
def lowerStr (l : List Char) : List Char :=
  l.map Char.toLower

/-- Case-insensitive literal match of `pat` (given lowercase) at the head of
`l`: the embedding of anchoring a `re.I` literal at one position. -/
def ciHeadMatch (pat l : List Char) : Bool :=
  lowerStr (l.take pat.length) = pat

/-- Case-insensitive search for a literal pattern anywhere in `l`:
`re.search(pat, l, re.I) is not None` for a metacharacter-free `pat`. -/
def ciSearch (pat : List Char) : List Char → Bool
  | [] => ciHeadMatch pat []
  | c :: rest => ciHeadMatch pat (c :: rest) || ciSearch pat rest

/-- One parsed dialogue turn: a LangChain `Document` as built by
`Pattern_extract`, with the metadata keys it populates.  The `Section`
key is absent (`none`) until `split_docs_into_sections` assigns it. -/
structure Doc where
  page_content : List Char
  speaker : List Char
  order : Nat
  type : String
  role : String
  Section : Option String
deriving DecidableEq, Repr

/-- Attach a `Section` metadata value (`doc.metadata["Section"] = s`). -/
def withSection (s : String) (d : Doc) : Doc :=
  { d with Section := some s }

/-- Forget the `Section` metadata value (used to compare an output
document with the input document it came from). -/
def eraseSection (d : Doc) : Doc :=
  { d with Section := none }

/-- The moderator filter of `split_docs_into_sections`:
`doc.metadata.get("speaker", "").strip().lower() != "moderator"`. -/
def keptSpeaker (d : Doc) : Bool :=
  decide (lowerStr (stripChars d.speaker) ≠ "moderator".toList)

/-- Embeds `re.search(r"The first question", content, re.I)` on the stripped
page content: the Q&A transition test of `split_docs_into_sections`. -/
def hasQaPhrase (d : Doc) : Bool :=
  ciSearch "the first question".toList (stripChars d.page_content)

/-- The flag update of the splitting loop: flip to `"Action Q&A"` when
still in `"Remarks"` and the stripped content contains the transition
phrase. -/
def nextSection (sec : String) (d : Doc) : String :=
  if sec = "Remarks" && hasQaPhrase d then "Action Q&A" else sec

/-- The loop of `split_docs_into_sections`, with the current-section flag
made explicit.  For each document the flag is updated first (to
`"Action Q&A"` once the stripped content contains the transition phrase
while still in `"Remarks"`), and only then the destination of the
document itself is decided, skipping moderator turns. -/
def splitGo (sec : String) : List Doc → List Doc × List Doc
  | [] => ([], [])
  | d :: rest =>
    let sec' := nextSection sec d
    let tail := splitGo sec' rest
    if keptSpeaker d then
      if sec' = "Remarks" then
        (withSection "Remark" d :: tail.1, tail.2)
      else if sec' = "Action Q&A" then
        (tail.1, withSection "Q&A" d :: tail.2)
      else tail
    else tail

/-- Embeds `split_docs_into_sections(extract_docs)`: partition the dialogue into
the `(remarks, action_qa)` lists, starting in the `"Remarks"` section. -/
def split_docs_into_sections (extract_docs : List Doc) : List Doc × List Doc :=
  splitGo "Remarks" extract_docs

/-- The loop of `group_by_pattern`, with the two accumulators
(`current_qs`, `current_as`) made explicit.  A `"Questioner"` turn closes
the open batch when answers are already pending; any other turn is an
answer and is appended unconditionally; at the end the last batch is
emitted when non-empty. -/
def groupGo (current_qs current_as : List Doc) : List Doc → List (List Doc × List Doc)
  | [] =>
    if current_qs = [] ∧ current_as = [] then []
    else [(current_qs, current_as)]
  | d :: rest =>
    if d.type = "Questioner" then
      if current_as = [] then groupGo (current_qs ++ [d]) current_as rest
      else (current_qs, current_as) :: groupGo [d] [] rest
    else groupGo current_qs (current_as ++ [d]) rest

/-- Embeds `group_by_pattern(qa_docs)`: batch the Q&A section into
(questions, answers) pairs, starting from empty accumulators. -/
def group_by_pattern (qa_docs : List Doc) : List (List Doc × List Doc) :=
  groupGo [] [] qa_docs

/-! ### The dialogue regex of `Pattern_extract`

The pattern is
`([A-Z][A-Za-z .'-]+):\s+(.*?)(?=(?:[A-Z][A-Za-z .'-]+:)|\Z)` with
`re.S`.  Specialised to this pattern, Python's matching semantics are:

* the speaker part `[A-Z][A-Za-z .'-]+:` matches at a position iff the
  first character is `[A-Z]`, the maximal run of name characters after it
  is non-empty, and the character following that run is `:` (the greedy
  `+` never needs to backtrack because `:` is not a name character);
* `\s+` is greedy and is committed to the maximal whitespace run, because
  for that run the rest of the pattern always succeeds (the lookahead
  alternative `\Z` holds at the end of the text);
* the lazy `(.*?)` then stops at the first position where the lookahead
  holds, i.e. the first position at which another speaker-colon token
  starts, or the end of the text.
-/

/-- Match the speaker token `[A-Z][A-Za-z .'-]+:` at the head of `l`;
on success return the speaker characters (without the colon) and the
remainder of the text after the colon. -/
def speakerColon (l : List Char) : Option (List Char × List Char) :=
  match l with
  | [] => none
  | c :: rest =>
    if isUpperAZ c then
      if (rest.takeWhile isNameChar).isEmpty then none
      else
        match rest.dropWhile isNameChar with
        | d :: r3 =>
          if d = ':' then some (c :: rest.takeWhile isNameChar, r3) else none
        | [] => none
    else none

/-- Scan for the first position where the lookahead
`(?=(?:[A-Z][A-Za-z .'-]+:)|\Z)` holds, returning the characters consumed
by the lazy `(.*?)` group and the remaining text at the lookahead
position. -/
def bodySplit : List Char → List Char × List Char
  | [] => ([], [])
  | c :: rest =>
    if (speakerColon (c :: rest)).isSome then ([], c :: rest)
    else
      let t := bodySplit rest
      (c :: t.1, t.2)

/-- Match the whole dialogue pattern at the head of `l`: on success return
the two capture groups (speaker, speech) and the remainder of the text at
the end of the match. -/
def dialogueMatch (l : List Char) : Option ((List Char × List Char) × List Char) :=
  match speakerColon l with
  | none => none
  | some (sp, r3) =>
    if (r3.takeWhile isPySpace).isEmpty then none
    else
      let r4 := r3.dropWhile isPySpace
      let t := bodySplit r4
      some ((sp, t.1), t.2)

/-- Does a full dialogue match start at the head of `l`?  Equivalent to
`(dialogueMatch l).isSome` (proved below); phrased directly on the
speaker/whitespace tests for convenience. -/
def dialogueStartsHere (l : List Char) : Bool :=
  match speakerColon l with
  | none => false
  | some (_, r3) => !(r3.takeWhile isPySpace).isEmpty

/-- Does the dialogue pattern match anywhere in `l`
(`re.search` view of the `findall` loop)? -/
def dialogueSomewhere : List Char → Bool
  | [] => dialogueStartsHere []
  | c :: rest => dialogueStartsHere (c :: rest) || dialogueSomewhere rest

/-- Embeds `re.findall` of the dialogue pattern: scan left to right, at each
position emit the leftmost match and continue from its end.  Structured
with an explicit fuel argument (one unit per scanned character) so that
the recursion is structural; `dialogueFindall` supplies sufficient fuel. -/
def findallAux : Nat → List Char → List (List Char × List Char)
  | 0, _ => []
  | _, [] => []
  | fuel + 1, c :: rest =>
    match dialogueMatch (c :: rest) with
    | some (groups, restAfter) => groups :: findallAux fuel restAfter
    | none => findallAux fuel rest

/-- Embeds `dialogue_pattern.findall(conversation_text)`. -/
def dialogueFindall (l : List Char) : List (List Char × List Char) :=
  findallAux l.length l

/-! ### The greeting search of `Pattern_extract`

`start_pattern` is the `re.I` alternation of
`Ladies and gentlemen, good day`, `Good morning, everyone` and
`Welcome to the .* conference call` (no `re.S`, so `.` excludes the
newline).  `Pattern_extract` only uses `match.start()`, the first
position at which one of the alternatives matches. -/

/-- After `Welcome to the `, can `.* conference call` match here?
`.*` consumes any run of non-newline characters. -/
def welcomeTail : List Char → Bool
  | [] => ciHeadMatch " conference call".toList []
  | c :: rest =>
    ciHeadMatch " conference call".toList (c :: rest) ||
      (c ≠ Char.ofNat 10 && welcomeTail rest)

/-- Does some alternative of `start_pattern` match at the head of `l`? -/
def greetingStartsHere (l : List Char) : Bool :=
  ciHeadMatch "ladies and gentlemen, good day".toList l ||
  ciHeadMatch "good morning, everyone".toList l ||
  (ciHeadMatch "welcome to the ".toList l &&
    welcomeTail (l.drop "welcome to the ".toList.length))

/-- The suffix of the text starting at `match.start()` of the greeting
search, or `none` when no greeting phrase matches anywhere. -/
def firstGreetingSuffix : List Char → Option (List Char)
  | [] => if greetingStartsHere [] then some [] else none
  | c :: rest =>
    if greetingStartsHere (c :: rest) then some (c :: rest)
    else firstGreetingSuffix rest

/-- Embeds `conversation_text`: everything from the first greeting onward, or
the whole text when no greeting phrase is found (the fallback branch). -/
def conversationText (text : List Char) : List Char :=
  (firstGreetingSuffix text).getD text

/-! ### `Pattern_extract` itself -/

/-- A raw page as produced by the PDF load: only its text content is
consumed by the functions verified here. -/
structure Page where
  page_content : List Char
deriving DecidableEq, Repr

/-- The document-building loop of `Pattern_extract`
(`enumerate(matches, start=1)`): turn the regex groups into `Doc` values,
stripping speaker and speech, numbering from `start`, and classifying
against the management list by case-sensitive exact membership. -/
def buildDocs (management : List (List Char)) : Nat → List (List Char × List Char) → List Doc
  | _, [] => []
  | i, (sp, speech) :: rest =>
    let s := stripChars sp
    { page_content := stripChars speech
      speaker := s
      order := i
      type := if s ∈ management then "Answerer" else "Questioner"
      role := if s ∈ management then "Management" else "Investor"
      Section := none } :: buildDocs management (i + 1) rest

/-- Embeds `"\n".join(i.page_content.strip() for i in docs)`. -/
def joinedText (docs : List Page) : List Char :=
  List.intercalate [Char.ofNat 10] (docs.map fun p => stripChars p.page_content)

/-- Embeds `Pattern_extract(docs, management)`: join the stripped pages, truncate
at the first greeting (when present), find all dialogue matches and build
the annotated `Doc` list. -/
def Pattern_extract (docs : List Page) (management : List (List Char)) : List Doc :=
  buildDocs management 1 (dialogueFindall (conversationText (joinedText docs)))

/-! ### Metadata extraction (`utils/metadata.py`)

The LLM call and pydantic's `model_validate_json` are external
collaborators; they enter the embedding as parameters (`llm` produces the
raw response string for a given input text, `validate` is `some c` when
the response parses and validates against the `ConferenceCall` schema and
`none` when pydantic raises).  Real wall-clock time is likewise a
parameter `today`, the value of
`datetime.now().date().strftime("%d-%m-%Y")`. -/

/-- One management participant, `metadata.Participant`. -/
structure Participant where
  name : String
  designation : String
deriving DecidableEq, Repr

/-- The validated pydantic model, `metadata.ConferenceCall`. -/
structure ConferenceCall where
  company_name : String
  conference_call_date : String
  management_participants : List Participant
deriving DecidableEq, Repr

/-- The plain-`dict` record shape that `meta_data` is documented to
return: the result of `json.loads(model.model_dump_json())`, or the
module-level `default_dict`.  Participants are (name, designation)
pairs. -/
structure MetaRecord where
  company_name : String
  conference_call_date : String
  management_participants : List (String × String)
deriving DecidableEq, Repr

/-- Embeds `metadata.default_dict`, with `today` standing for
`datetime.now().date().strftime("%d-%m-%Y")`. -/
def default_dict (today : String) : MetaRecord :=
  { company_name := "No data"
    conference_call_date := today
    management_participants := [("No data", "No data")] }

/-- The value held in Python's `result` variable after the metadata
chain: either a validated pydantic model instance, or (on the `except`
branches of `safe_parse`) the plain default `dict`. -/
inductive MetaParsed where
  | model : ConferenceCall → MetaParsed
  | plainDict : MetaRecord → MetaParsed
deriving DecidableEq, Repr

/-- Embeds `metadata.safe_parse(response, model, default)`: return the validated
model instance when `model.model_validate_json(response)` succeeds, and
the default `dict` when it raises (both `except` arms return
`default`). -/
def meta_safe_parse (validated : Option ConferenceCall) (default : MetaRecord) : MetaParsed :=
  match validated with
  | some c => MetaParsed.model c
  | none => MetaParsed.plainDict default

/-- Embeds `json.loads(c.model_dump_json(indent=2))` for a validated
`ConferenceCall` model: serialisation followed by deserialisation, i.e.
the record with the same fields. -/
def dumpConferenceCall (c : ConferenceCall) : MetaRecord :=
  { company_name := c.company_name
    conference_call_date := c.conference_call_date
    management_participants := c.management_participants.map fun p => (p.name, p.designation) }

/-- The attribute access `result.model_dump_json(indent=2)` followed by
`json.loads`: succeeds on a pydantic model instance, but raises
`AttributeError` when `result` is the plain default `dict`, which has no
`model_dump_json` attribute. -/
def model_dump_json_loads : MetaParsed → Except PyErr MetaRecord
  | MetaParsed.model c => Except.ok (dumpConferenceCall c)
  | MetaParsed.plainDict _ => Except.error PyErr.attributeError

/-- Python `docs[i]`: `IndexError` when `i` is out of range. -/
def pyGetElem (l : List α) (i : Nat) : Except PyErr α :=
  match l.get? i with
  | some x => Except.ok x
  | none => Except.error PyErr.indexError

/-- Embeds `metadata.meta_data(docs)`: concatenate the first two pages, run the
extraction chain (prompt → LLM → string parser → `safe_parse`), then
convert the result via `model_dump_json` and `json.loads`. -/
def meta_data (docs : List Page) (llm : List Char → List Char)
    (validate : List Char → Option ConferenceCall) (today : String) :
    Except PyErr MetaRecord := do
  let d0 ← pyGetElem docs 0
  let d1 ← pyGetElem docs 1
  let combined_text := d0.page_content ++ d1.page_content
  let response := llm combined_text
  let result := meta_safe_parse (validate response) (default_dict today)
  model_dump_json_loads result

/-! ### Topic extraction (`utils/create_topics.py`) -/

/-- The validated pydantic model, `create_topics.TopicsOutput`. -/
structure TopicsOutput where
  topics : List String
deriving DecidableEq, Repr

/-- The plain-`dict` record shape of the topic result
(`{"topics": [...]}`). -/
structure TopicsRecord where
  topics : List String
deriving DecidableEq, Repr

/-- Embeds `create_topics.default_dict`: `{"topics": []}`. -/
def topics_default_dict : TopicsRecord :=
  { topics := [] }

/-- The value held in `result` after the topic chain: a validated model
instance, or the plain default `dict` on a parse failure. -/
inductive TopicsParsed where
  | model : TopicsOutput → TopicsParsed
  | plainDict : TopicsRecord → TopicsParsed
deriving DecidableEq, Repr

/-- Embeds `create_topics.safe_parse(response, model, default)`. -/
def topics_safe_parse (validated : Option TopicsOutput) (default : TopicsRecord) : TopicsParsed :=
  match validated with
  | some t => TopicsParsed.model t
  | none => TopicsParsed.plainDict default

/-- Embeds `result.model_dump_json(indent=2)` + `json.loads` for the topic
result: `AttributeError` when `result` is the plain default `dict`. -/
def topics_model_dump_json_loads : TopicsParsed → Except PyErr TopicsRecord
  | TopicsParsed.model t => Except.ok { topics := t.topics }
  | TopicsParsed.plainDict _ => Except.error PyErr.attributeError

/-- Embeds `" ".join(doc.page_content for doc in docs)`. -/
def joinedSpace (docs : List Page) : List Char :=
  List.intercalate [' '] (docs.map Page.page_content)

/-- Embeds `create_topics.extract_topics(docs)`: join the page contents, run the
topic chain (prompt → LLM → string parser → `safe_parse`), then convert
the result via `model_dump_json` and `json.loads`. -/
def extract_topics (docs : List Page) (llm : List Char → List Char)
    (validate : List Char → Option TopicsOutput) : Except PyErr TopicsRecord := do
  let combined_text := joinedSpace docs
  let response := llm combined_text
  let result := topics_safe_parse (validate response) topics_default_dict
  topics_model_dump_json_loads result

/-! ### The RAG pipeline (`utils/rag.py`)

The FAISS store is an external collaborator.  `Store` carries its
documented interface contract (spec section 6): `query(handle, text, k)`
returns at most `k` pairs and at most as many as there are indexed
utterances, in an arbitrary native order.  `FAISS.load_local` is embedded
over an `Option Store` (`none`: the `faiss_index` directory does not
exist — the build has not finished or failed — and the load raises). -/

/-- An opened FAISS store together with its interface contract.
`native q k` is the list of (document, score) pairs that
`similarity_search_with_score(q, k=k)` returns, in the index's native
order. -/
structure Store where
  indexedCount : Nat
  native : List Char → Nat → List (Doc × Int)
  native_le_k : ∀ q k, (native q k).length ≤ k
  native_le_count : ∀ q k, (native q k).length ≤ indexedCount

/-- Embeds `FAISS.load_local("faiss_index", ...)`: raises when the saved index
does not exist; `rag_pipeline` contains no handler for this. -/
def FAISS_load_local (saved : Option Store) : Except PyErr Store :=
  match saved with
  | some s => Except.ok s
  | none => Except.error PyErr.runtimeError

/-- The retrieval constant `k=10` of `rag.rag_pipeline`. -/
def ragK : Nat := 10

/-- Embeds `docs_with_scores.sort(key=lambda x: x[1], reverse=True)`: stable
sort by descending score. -/
def sortByScoreDesc (l : List (Doc × Int)) : List (Doc × Int) :=
  l.mergeSort fun a b => decide (b.2 ≤ a.2)

/-- Embeds `rag.rag_pipeline(user_input)`: load the store (propagating a load
failure), retrieve the top `k=10` pairs, re-sort them by descending
score, and return the generated answer together with the sorted pairs.
The answer-generation chain is the external parameter `chain`. -/
def rag_pipeline (saved : Option Store)
    (chain : List Char → List (Doc × Int) → String) (user_input : List Char) :
    Except PyErr (String × List (Doc × Int)) := do
  let store ← FAISS_load_local saved
  let docs_with_scores := sortByScoreDesc (store.native user_input ragK)
  Except.ok (chain user_input docs_with_scores, docs_with_scores)

/-- A concrete non-moderator turn containing the Q&A transition phrase
(used as a witness input for the splitting theorems). -/
def phraseDoc : Doc :=
  { page_content := "Thank you. We will now take The first question from the line.".toList
    speaker := "Rajeev".toList
    order := 2
    type := "Questioner", role := "Investor", Section := none }

/-- A sample Questioner turn (used to state the batching law). -/
def qDoc (n : Nat) : Doc :=
  { page_content := [], speaker := [], order := n
    type := "Questioner", role := "Investor", Section := some "Q&A" }

/-- A sample Answerer turn (used to state the batching law). -/
def aDoc (n : Nat) : Doc :=
  { page_content := [], speaker := [], order := n
    type := "Answerer", role := "Management", Section := some "Q&A" }

end ConvAnalyst

namespace ConvAnalyst

/-! ## Theorems -/

/-- C1: for every query and every pre-built index, the second component of
`rag_pipeline`'s result is the native retrieval re-sorted in descending
score order (so it is sorted descending regardless of the index's native
order convention), and its length is at most `K = 10` and at most the
number of indexed utterances. -/
theorem rag_output_sorted_desc_and_bounded (store : Store)
    (chain : List Char → List (Doc × Int) → String) (q : List Char) :
    rag_pipeline (some store) chain q =
      Except.ok (chain q (sortByScoreDesc (store.native q ragK)),
        sortByScoreDesc (store.native q ragK)) ∧
    List.Pairwise (fun a b : Doc × Int => b.2 ≤ a.2)
      (sortByScoreDesc (store.native q ragK)) ∧
    (sortByScoreDesc (store.native q ragK)).length ≤ ragK ∧
    (sortByScoreDesc (store.native q ragK)).length ≤ store.indexedCount := by
  refine ⟨rfl, ?_, ?_, ?_⟩
  · have h := @List.sorted_mergeSort (Doc × Int)
      (fun a b : Doc × Int => decide (b.2 ≤ a.2))
      (fun a b c hab hbc => by
        simp only [decide_eq_true_eq] at hab hbc ⊢
        exact le_trans hbc hab)
      (fun a b => by
        simp only [Bool.or_eq_true, decide_eq_true_eq]
        exact le_total b.2 a.2)
      (store.native q ragK)
    exact h.imp fun hab => by simpa using hab
  · rw [sortByScoreDesc, List.length_mergeSort]
    exact store.native_le_k q ragK
  · rw [sortByScoreDesc, List.length_mergeSort]
    exact store.native_le_count q ragK

/-- C2 (divergence witness): on an input whose collaborator response fails
validation, `meta_data` raises `AttributeError` (the plain default `dict`
returned by `safe_parse` has no `model_dump_json` attribute) instead of
returning the documented default record. -/
theorem meta_data_parse_failure_attributeError :
    meta_data [Page.mk "Laurus Labs Limited Q2 FY24 call ".toList,
        Page.mk "transcript page two".toList]
      (fun _ => "I am unable to answer in JSON.".toList)
      (fun _ => none) "12-10-2025"
      = Except.error PyErr.attributeError ∧
    meta_data [Page.mk "Laurus Labs Limited Q2 FY24 call ".toList,
        Page.mk "transcript page two".toList]
      (fun _ => "I am unable to answer in JSON.".toList)
      (fun _ => none) "12-10-2025"
      ≠ Except.ok (default_dict "12-10-2025") :=
  ⟨rfl, fun h => Except.noConfusion h⟩

/-- C3 (counterexample): when the saved index does not exist,
`rag_pipeline` evaluates to the raw propagated `RuntimeError` of the index
load — an unhandled exception — and not to a distinct "index not ready"
condition. -/
theorem rag_pipeline_missing_index_counterexample :
    rag_pipeline none (fun _ _ => "") [] = Except.error PyErr.runtimeError ∧
    rag_pipeline none (fun _ _ => "") [] ≠ Except.error PyErr.indexNotReady :=
  ⟨rfl, fun h => PyErr.noConfusion (Except.error.inj h)⟩

/-- C3 (amended): for every query arriving while the index does not exist,
`rag_pipeline` propagates the index-load exception unhandled to the
caller (it neither blocks nor returns an empty result set, but it also
does not report a distinct index-not-ready condition). -/
theorem rag_pipeline_missing_index_raises
    (chain : List Char → List (Doc × Int) → String) (q : List Char) :
    rag_pipeline none chain q = Except.error PyErr.runtimeError := rfl

/-- C4 (divergence witness): on an input whose collaborator response fails
validation, `extract_topics` raises `AttributeError` (the plain default
`dict` returned by `safe_parse` has no `model_dump_json` attribute)
instead of returning the documented `{"topics": []}` record. -/
theorem extract_topics_parse_failure_attributeError :
    extract_topics [Page.mk "Some remarks about revenue growth.".toList]
      (fun _ => "not valid json".toList) (fun _ => none)
      = Except.error PyErr.attributeError ∧
    extract_topics [Page.mk "Some remarks about revenue growth.".toList]
      (fun _ => "not valid json".toList) (fun _ => none)
      ≠ Except.ok topics_default_dict :=
  ⟨rfl, fun h => Except.noConfusion h⟩

/-- C10: `meta_data` reads `docs[0]` and `docs[1]` unconditionally, so on
every list with fewer than two documents it raises `IndexError` instead
of returning any record. -/
theorem meta_data_short_input_indexError (docs : List Page)
    (llm : List Char → List Char) (validate : List Char → Option ConferenceCall)
    (today : String) (h : docs.length < 2) :
    meta_data docs llm validate today = Except.error PyErr.indexError := by
  match docs, h with
  | [], _ => rfl
  | [d], _ => rfl

/-- Witness for C10 at the concrete empty input. -/
theorem meta_data_short_input_indexError_witness :
    meta_data [] (fun _ => []) (fun _ => none) "12-10-2025"
      = Except.error PyErr.indexError :=
  meta_data_short_input_indexError [] (fun _ => []) (fun _ => none) "12-10-2025"
    (by decide)

/-- C5: the batcher closes the current batch exactly when a Questioner
turn arrives while answers are pending, appends Answerer turns
unconditionally, emits a final batch iff an accumulator is non-empty, and
on the type sequences Q,Q,A,A,Q,A,A and Q,Q,Q produces exactly the
batches ([Q1,Q2],[A1,A2]),([Q3],[A4,A5]) and ([Q1,Q2,Q3],[]). -/
theorem group_by_pattern_spec :
    (∀ qs as d rest, d.type = "Questioner" → as ≠ [] →
      groupGo qs as (d :: rest) = (qs, as) :: groupGo [d] [] rest) ∧
    (∀ qs as d rest, d.type = "Questioner" → as = [] →
      groupGo qs as (d :: rest) = groupGo (qs ++ [d]) as rest) ∧
    (∀ qs as d rest, d.type ≠ "Questioner" →
      groupGo qs as (d :: rest) = groupGo qs (as ++ [d]) rest) ∧
    (∀ qs as, qs ≠ [] ∨ as ≠ [] → groupGo qs as [] = [(qs, as)]) ∧
    group_by_pattern [qDoc 1, qDoc 2, aDoc 3, aDoc 4, qDoc 5, aDoc 6, aDoc 7]
      = [([qDoc 1, qDoc 2], [aDoc 3, aDoc 4]), ([qDoc 5], [aDoc 6, aDoc 7])] ∧
    group_by_pattern [qDoc 1, qDoc 2, qDoc 3]
      = [([qDoc 1, qDoc 2, qDoc 3], [])] := by
  refine ⟨?_, ?_, ?_, ?_, by decide, by decide⟩
  · intro qs as d rest hd has
    simp [groupGo, hd, has]
  · intro qs as d rest hd has
    simp [groupGo, hd, has]
  · intro qs as d rest hd
    simp [groupGo, hd]
  · intro qs as h
    rcases h with h | h <;> simp [groupGo, h]

/-- Witness for C5: the four conditional clauses instantiated at concrete
accumulators and turns. -/
theorem group_by_pattern_spec_witness :
    groupGo [qDoc 1] [aDoc 2] [qDoc 3] = ([qDoc 1], [aDoc 2]) :: groupGo [qDoc 3] [] [] ∧
    groupGo [qDoc 1] [] [qDoc 2] = groupGo [qDoc 1, qDoc 2] [] [] ∧
    groupGo [qDoc 1] [] [aDoc 2] = groupGo [qDoc 1] [aDoc 2] [] ∧
    groupGo [qDoc 1] [aDoc 2] [] = [([qDoc 1], [aDoc 2])] :=
  ⟨group_by_pattern_spec.1 [qDoc 1] [aDoc 2] (qDoc 3) [] rfl (by decide),
   group_by_pattern_spec.2.1 [qDoc 1] [] (qDoc 2) [] rfl rfl,
   group_by_pattern_spec.2.2.1 [qDoc 1] [] (aDoc 2) [] (by decide),
   group_by_pattern_spec.2.2.2.1 [qDoc 1] [aDoc 2] (Or.inl (by decide))⟩

theorem eraseSection_withSection (s : String) (d : Doc) :
    eraseSection (withSection s d) = eraseSection d := rfl

theorem keptSpeaker_eraseSection (d : Doc) :
    keptSpeaker (eraseSection d) = keptSpeaker d := rfl

/-- If an output document (section erased) coincides with a query
document, their moderator status coincides. -/
theorem keptSpeaker_of_eraseSection_eq {h d : Doc} (he : eraseSection h = d) :
    keptSpeaker d = keptSpeaker h := by
  rw [← he, keptSpeaker_eraseSection]

/-- Unfolding of the splitting loop on a kept document while the flag
stays/flips to `"Remarks"`. -/
theorem splitGo_cons_remark {s : String} {h : Doc} (rest : List Doc)
    (h1 : nextSection s h = "Remarks") (hk : keptSpeaker h = true) :
    splitGo s (h :: rest) =
      (withSection "Remark" h :: (splitGo "Remarks" rest).1,
        (splitGo "Remarks" rest).2) := by
  show (let sec' := nextSection s h
        let tail := splitGo sec' rest
        if keptSpeaker h then
          if sec' = "Remarks" then (withSection "Remark" h :: tail.1, tail.2)
          else if sec' = "Action Q&A" then (tail.1, withSection "Q&A" h :: tail.2)
          else tail
        else tail) = _
  rw [h1, hk]
  simp

/-- Unfolding of the splitting loop on a kept document once the flag
is/flips to `"Action Q&A"`. -/
theorem splitGo_cons_qa {s : String} {h : Doc} (rest : List Doc)
    (h1 : nextSection s h = "Action Q&A") (hk : keptSpeaker h = true) :
    splitGo s (h :: rest) =
      ((splitGo "Action Q&A" rest).1,
        withSection "Q&A" h :: (splitGo "Action Q&A" rest).2) := by
  show (let sec' := nextSection s h
        let tail := splitGo sec' rest
        if keptSpeaker h then
          if sec' = "Remarks" then (withSection "Remark" h :: tail.1, tail.2)
          else if sec' = "Action Q&A" then (tail.1, withSection "Q&A" h :: tail.2)
          else tail
        else tail) = _
  rw [h1, hk]
  simp

/-- Unfolding of the splitting loop on a moderator document: it is
dropped, and only the flag may change. -/
theorem splitGo_cons_dropped {h : Doc} (s : String) (rest : List Doc)
    (hk : keptSpeaker h = false) :
    splitGo s (h :: rest) = splitGo (nextSection s h) rest := by
  show (let sec' := nextSection s h
        let tail := splitGo sec' rest
        if keptSpeaker h then
          if sec' = "Remarks" then (withSection "Remark" h :: tail.1, tail.2)
          else if sec' = "Action Q&A" then (tail.1, withSection "Q&A" h :: tail.2)
          else tail
        else tail) = _
  rw [hk]
  simp

/-- The flag update takes only the two reachable values. -/
theorem nextSection_cases {s : String} (h : Doc)
    (hs : s = "Remarks" ∨ s = "Action Q&A") :
    nextSection s h = "Remarks" ∨ nextSection s h = "Action Q&A" := by
  rw [nextSection]
  split
  · exact Or.inr rfl
  · exact hs

/-- Counting lemma for the splitting loop: with the flag in one of its
two reachable values, every non-moderator input document survives into
exactly one of the two outputs (section tags erased), and every
moderator document into neither. -/
theorem splitGo_count (d : Doc) :
    ∀ (docs : List Doc) (s : String), s = "Remarks" ∨ s = "Action Q&A" →
      ((splitGo s docs).1.map eraseSection).count d
        + ((splitGo s docs).2.map eraseSection).count d
      = if keptSpeaker d then (docs.map eraseSection).count d else 0 := by
  intro docs
  induction docs with
  | nil =>
    intro s hs
    simp [splitGo]
  | cons h rest ih =>
    intro s hs
    have hs' := nextSection_cases h hs
    have ihr := ih (nextSection s h) hs'
    have hcount : ∀ l : List Doc, ((h :: l).map eraseSection).count d
        = (l.map eraseSection).count d + if eraseSection h = d then 1 else 0 := by
      intro l
      simp [List.count_cons]
    by_cases hk : keptSpeaker h = true
    · have hind0 : keptSpeaker d = false → (if eraseSection h = d then 1 else 0) = 0 := by
        intro hkd
        have : ¬ (eraseSection h = d) := fun he => by
          rw [keptSpeaker_of_eraseSection_eq he, hk] at hkd
          cases hkd
        simp [this]
      rcases hs' with h1 | h1
      · rw [splitGo_cons_remark rest h1 hk, hcount]
        rw [h1] at ihr
        simp only [List.map_cons, List.count_cons, eraseSection_withSection, beq_iff_eq]
        by_cases hkd : keptSpeaker d = true
        · rw [hkd] at ihr ⊢
          simp only [if_true] at ihr ⊢
          omega
        · have hkd' : keptSpeaker d = false := by
            cases hh : keptSpeaker d
            · rfl
            · exact absurd hh hkd
          rw [hkd'] at ihr ⊢
          simp only [Bool.false_eq_true, if_false] at ihr ⊢
          have := hind0 hkd'
          omega
      · rw [splitGo_cons_qa rest h1 hk, hcount]
        rw [h1] at ihr
        simp only [List.map_cons, List.count_cons, eraseSection_withSection, beq_iff_eq]
        by_cases hkd : keptSpeaker d = true
        · rw [hkd] at ihr ⊢
          simp only [if_true] at ihr ⊢
          omega
        · have hkd' : keptSpeaker d = false := by
            cases hh : keptSpeaker d
            · rfl
            · exact absurd hh hkd
          rw [hkd'] at ihr ⊢
          simp only [Bool.false_eq_true, if_false] at ihr ⊢
          have := hind0 hkd'
          omega
    · have hk' : keptSpeaker h = false := by
        cases hh : keptSpeaker h
        · rfl
        · exact absurd hh hk
      rw [splitGo_cons_dropped s rest hk', hcount, ihr]
      by_cases hkd : keptSpeaker d = true
      · have hind : ¬ (eraseSection h = d) := fun he => by
          rw [keptSpeaker_of_eraseSection_eq he, hk'] at hkd
          cases hkd
        rw [hkd]
        simp [hind]
      · have hkd' : keptSpeaker d = false := by
          cases hh : keptSpeaker d
          · rfl
          · exact absurd hh hkd
        rw [hkd']
        simp

/-- The flag never leaves `"Action Q&A"`. -/
theorem nextSection_actionQA (h : Doc) :
    nextSection "Action Q&A" h = "Action Q&A" := by
  rw [nextSection]
  simp

/-- Without the transition phrase the flag stays `"Remarks"`. -/
theorem nextSection_remarks_of_no_phrase {h : Doc} (hq : hasQaPhrase h = false) :
    nextSection "Remarks" h = "Remarks" := by
  rw [nextSection, hq]
  simp

/-- With the transition phrase in `"Remarks"` the flag flips. -/
theorem nextSection_remarks_of_phrase {h : Doc} (hq : hasQaPhrase h = true) :
    nextSection "Remarks" h = "Action Q&A" := by
  rw [nextSection, hq]
  simp

/-- Once the flag is `"Action Q&A"`, no document ever reaches the
remarks output: the rest of the run is the non-moderator documents,
tagged with section `"Q&A"`, in order. -/
theorem splitGo_actionQA :
    ∀ docs : List Doc, splitGo "Action Q&A" docs
      = ([], (docs.filter keptSpeaker).map (withSection "Q&A")) := by
  intro docs
  induction docs with
  | nil => simp [splitGo]
  | cons h rest ih =>
    by_cases hk : keptSpeaker h = true
    · rw [splitGo_cons_qa rest (nextSection_actionQA h) hk, ih]
      simp [List.filter_cons, hk]
    · have hk' : keptSpeaker h = false := by
        cases hh : keptSpeaker h
        · rfl
        · exact absurd hh hk
      rw [splitGo_cons_dropped _ rest hk', nextSection_actionQA, ih]
      simp [List.filter_cons, hk']

/-- While no document contains the transition phrase, the run in
`"Remarks"` files every non-moderator document under remarks and
nothing under Q&A. -/
theorem splitGo_remarks_no_phrase :
    ∀ docs : List Doc, (∀ p ∈ docs, hasQaPhrase p = false) →
      splitGo "Remarks" docs
        = ((docs.filter keptSpeaker).map (withSection "Remark"), []) := by
  intro docs
  induction docs with
  | nil =>
    intro _
    simp [splitGo]
  | cons h rest ih =>
    intro hq
    have hqh := hq h (List.mem_cons_self h rest)
    have hqr : ∀ p ∈ rest, hasQaPhrase p = false :=
      fun p hp => hq p (List.mem_cons_of_mem h hp)
    by_cases hk : keptSpeaker h = true
    · rw [splitGo_cons_remark rest (nextSection_remarks_of_no_phrase hqh) hk, ih hqr]
      simp [List.filter_cons, hk]
    · have hk' : keptSpeaker h = false := by
        cases hh : keptSpeaker h
        · rfl
        · exact absurd hh hk
      rw [splitGo_cons_dropped _ rest hk', nextSection_remarks_of_no_phrase hqh, ih hqr]
      simp [List.filter_cons, hk']

/-- A phrase-free segment processed in `"Remarks"` contributes only its
non-moderator documents to the remarks output, and the run continues in
`"Remarks"` on the remainder. -/
theorem splitGo_remarks_append :
    ∀ (pre l : List Doc), (∀ p ∈ pre, hasQaPhrase p = false) →
      splitGo "Remarks" (pre ++ l)
        = ((pre.filter keptSpeaker).map (withSection "Remark")
            ++ (splitGo "Remarks" l).1,
           (splitGo "Remarks" l).2) := by
  intro pre
  induction pre with
  | nil =>
    intro l _
    simp
  | cons h rest ih =>
    intro l hq
    have hqh := hq h (List.mem_cons_self h rest)
    have hqr : ∀ p ∈ rest, hasQaPhrase p = false :=
      fun p hp => hq p (List.mem_cons_of_mem h hp)
    by_cases hk : keptSpeaker h = true
    · rw [List.cons_append,
        splitGo_cons_remark (rest ++ l) (nextSection_remarks_of_no_phrase hqh) hk,
        ih l hqr]
      simp [List.filter_cons, hk]
    · have hk' : keptSpeaker h = false := by
        cases hh : keptSpeaker h
        · rfl
        · exact absurd hh hk
      rw [List.cons_append, splitGo_cons_dropped _ (rest ++ l) hk',
        nextSection_remarks_of_no_phrase hqh, ih l hqr]
      simp [List.filter_cons, hk']

/-- C7: the first utterance containing the transition phrase (while the
flag is still `"Remarks"`) is itself filed under Q&A, not Remarks, when
its speaker is not the moderator; and when the phrase never appears,
every retained utterance lands in Remarks and the Q&A output is empty. -/
theorem split_transition_phrase :
    (∀ pre d rest, (∀ p ∈ pre, hasQaPhrase p = false) → hasQaPhrase d = true →
        keptSpeaker d = true →
      split_docs_into_sections (pre ++ d :: rest)
        = ((pre.filter keptSpeaker).map (withSection "Remark"),
           withSection "Q&A" d
             :: (rest.filter keptSpeaker).map (withSection "Q&A"))) ∧
    (∀ docs, (∀ p ∈ docs, hasQaPhrase p = false) →
      split_docs_into_sections docs
        = ((docs.filter keptSpeaker).map (withSection "Remark"), [])) := by
  constructor
  · intro pre d rest hpre hd hkd
    rw [split_docs_into_sections, splitGo_remarks_append pre (d :: rest) hpre,
      splitGo_cons_qa rest (nextSection_remarks_of_phrase hd) hkd,
      splitGo_actionQA rest]
    simp
  · intro docs hq
    rw [split_docs_into_sections, splitGo_remarks_no_phrase docs hq]

/-- Witness for C7: a concrete three-turn transcript in which the middle
turn contains the transition phrase and is filed under Q&A. -/
theorem split_transition_phrase_witness :
    split_docs_into_sections [qDoc 1, phraseDoc, aDoc 3]
      = ([withSection "Remark" (qDoc 1)],
         [withSection "Q&A" phraseDoc, withSection "Q&A" (aDoc 3)]) ∧
    split_docs_into_sections [qDoc 1, aDoc 3]
      = ([withSection "Remark" (qDoc 1), withSection "Remark" (aDoc 3)], []) := by
  constructor
  · exact (split_transition_phrase.1 [qDoc 1] phraseDoc [aDoc 3]
      (by decide) (by decide) (by decide)).trans (by decide)
  · exact (split_transition_phrase.2 [qDoc 1, aDoc 3] (by decide)).trans (by decide)

/-- A full dialogue match starts at a position exactly when the fast test
`dialogueStartsHere` holds there. -/
theorem dialogueStartsHere_eq (l : List Char) :
    dialogueStartsHere l = (dialogueMatch l).isSome := by
  cases hm : speakerColon l with
  | none => simp [dialogueStartsHere, dialogueMatch, hm]
  | some pr =>
    cases pr with
    | mk sp r3 =>
      by_cases hw : (r3.takeWhile isPySpace).isEmpty = true
      · simp [dialogueStartsHere, dialogueMatch, hm, hw]
      · simp [dialogueStartsHere, dialogueMatch, hm, hw]

/-- The lookahead scan consumes no characters beyond its input. -/
theorem bodySplit_snd_length :
    ∀ l : List Char, (bodySplit l).2.length ≤ l.length := by
  intro l
  induction l with
  | nil => simp [bodySplit]
  | cons c rest ih =>
    rw [bodySplit]
    by_cases hs : (speakerColon (c :: rest)).isSome = true
    · simp [hs]
    · simp only [hs, if_false, Bool.false_eq_true]
      exact le_trans ih (Nat.le_succ _)

/-- A successful speaker-colon match consumes at least two characters. -/
theorem speakerColon_rest_length :
    ∀ {l sp r3 : List Char}, speakerColon l = some (sp, r3) →
      r3.length < l.length := by
  intro l sp r3 h
  match l with
  | [] => exact absurd h (by simp [speakerColon])
  | c :: rest =>
    rw [speakerColon] at h
    split at h
    · split at h
      · exact absurd h (by simp)
      · split at h
        · rename_i d r3x heq
          split at h
          · cases h
            have hlen : (rest.dropWhile isNameChar).length ≤ rest.length :=
              List.Sublist.length_le (List.dropWhile_sublist isNameChar)
            rw [heq] at hlen
            simp only [List.length_cons] at hlen ⊢
            omega
          · exact absurd h (by simp)
        · exact absurd h (by simp)
    · exact absurd h (by simp)

/-- A successful dialogue match leaves strictly less text to scan. -/
theorem dialogueMatch_rest_length :
    ∀ {l : List Char} {g : List Char × List Char} {rest : List Char},
      dialogueMatch l = some (g, rest) → rest.length < l.length := by
  intro l g rest h
  rw [dialogueMatch] at h
  split at h
  · exact absurd h (by simp)
  · rename_i sp r3 heq
    split at h
    · exact absurd h (by simp)
    · simp only [] at h
      cases h
      have h1 := bodySplit_snd_length (r3.dropWhile isPySpace)
      have h2 : (r3.dropWhile isPySpace).length ≤ r3.length :=
        List.Sublist.length_le (List.dropWhile_sublist isPySpace)
      have h3 := speakerColon_rest_length heq
      omega

/-- With enough fuel, the `findall` scan returns no matches exactly when
no dialogue match starts anywhere in the text. -/
theorem findallAux_eq_nil_iff :
    ∀ (fuel : Nat) (l : List Char), l.length ≤ fuel →
      (findallAux fuel l = [] ↔ dialogueSomewhere l = false) := by
  intro fuel
  induction fuel with
  | zero =>
    intro l hl
    have : l = [] := List.length_eq_zero.mp (Nat.le_zero.mp hl)
    subst this
    simp [findallAux, dialogueSomewhere, dialogueStartsHere, speakerColon]
  | succ fuel ih =>
    intro l hl
    match l with
    | [] =>
      simp [findallAux, dialogueSomewhere, dialogueStartsHere, speakerColon]
    | c :: rest =>
      rw [findallAux]
      cases hm : dialogueMatch (c :: rest) with
      | some pr =>
        have hstart : dialogueStartsHere (c :: rest) = true := by
          rw [dialogueStartsHere_eq, hm]
          rfl
        simp [dialogueSomewhere, hstart]
      | none =>
        have hstart : dialogueStartsHere (c :: rest) = false := by
          rw [dialogueStartsHere_eq, hm]
          rfl
        have hr : rest.length ≤ fuel := by
          simp only [List.length_cons] at hl
          omega
        rw [dialogueSomewhere, hstart]
        simpa using ih rest hr

/-- The document builder returns one document per regex match. -/
theorem buildDocs_length (m : List (List Char)) :
    ∀ (ms : List (List Char × List Char)) (k : Nat),
      (buildDocs m k ms).length = ms.length := by
  intro ms
  induction ms with
  | nil => intro k; rfl
  | cons g rest ih =>
    intro k
    cases g with
    | mk sp speech => simp [buildDocs, ih]

/-- C8: when no greeting phrase matches anywhere in the joined text, the
extractor takes the entire text as the conversation (no truncation), its
output is non-empty whenever the dialogue pattern matches anywhere in
the full text, and a text with zero dialogue matches yields the empty
sequence. -/
theorem pattern_extract_fallback (docs : List Page) (management : List (List Char))
    (h : firstGreetingSuffix (joinedText docs) = none) :
    conversationText (joinedText docs) = joinedText docs ∧
    (dialogueSomewhere (joinedText docs) = true →
      Pattern_extract docs management ≠ []) ∧
    (dialogueSomewhere (joinedText docs) = false →
      Pattern_extract docs management = []) := by
  have hconv : conversationText (joinedText docs) = joinedText docs := by
    rw [conversationText, h]
    rfl
  have hlen : (Pattern_extract docs management).length
      = (dialogueFindall (joinedText docs)).length := by
    rw [Pattern_extract, hconv, buildDocs_length]
  have hiff := findallAux_eq_nil_iff (joinedText docs).length (joinedText docs)
    (le_refl _)
  refine ⟨hconv, ?_, ?_⟩
  · intro hd hnil
    have : dialogueFindall (joinedText docs) = [] := by
      rw [← List.length_eq_zero, ← hlen, hnil]
      rfl
    rw [dialogueFindall] at this
    rw [hiff.mp this] at hd
    cases hd
  · intro hd
    have : dialogueFindall (joinedText docs) = [] := hiff.mpr hd
    rw [← List.length_eq_zero, hlen, this]
    rfl

/-- Witness for C8: a concrete greeting-free transcript in which the
dialogue pattern matches, and its extension by dialogue-free text. -/
theorem pattern_extract_fallback_witness :
    conversationText (joinedText [Page.mk "xx John Smith: hi all Jane Roe: thanks".toList])
      = joinedText [Page.mk "xx John Smith: hi all Jane Roe: thanks".toList] ∧
    Pattern_extract [Page.mk "xx John Smith: hi all Jane Roe: thanks".toList]
      ["John Smith".toList] ≠ [] ∧
    Pattern_extract [Page.mk "no dialogue in this text".toList] [] = [] := by
  have t1 := pattern_extract_fallback
    [Page.mk "xx John Smith: hi all Jane Roe: thanks".toList]
    ["John Smith".toList] (by decide)
  have t2 := pattern_extract_fallback
    [Page.mk "no dialogue in this text".toList] [] (by decide)
  exact ⟨t1.1, t1.2.1 (by decide), t2.2.2 (by decide)⟩

/-- The fields of the `i`-th document built from the regex matches:
`order` is the offset from the starting rank, and type/role are
classified by exact membership of the trimmed speaker in the management
list. -/
theorem buildDocs_get (m : List (List Char)) :
    ∀ (ms : List (List Char × List Char)) (k i : Nat)
      (h : i < (buildDocs m k ms).length),
      ((buildDocs m k ms).get ⟨i, h⟩).order = k + i ∧
      (((buildDocs m k ms).get ⟨i, h⟩).speaker ∈ m →
        ((buildDocs m k ms).get ⟨i, h⟩).type = "Answerer" ∧
        ((buildDocs m k ms).get ⟨i, h⟩).role = "Management") ∧
      (((buildDocs m k ms).get ⟨i, h⟩).speaker ∉ m →
        ((buildDocs m k ms).get ⟨i, h⟩).type = "Questioner" ∧
        ((buildDocs m k ms).get ⟨i, h⟩).role = "Investor") := by
  intro ms
  induction ms with
  | nil =>
    intro k i h
    exact absurd h (by simp [buildDocs])
  | cons g rest ih =>
    intro k i h
    cases g with
    | mk sp speech =>
      cases i with
      | zero =>
        by_cases hm : stripChars sp ∈ m
        · simp [buildDocs, List.get, hm]
        · simp [buildDocs, List.get, hm]
      | succ j =>
        have h' : j < (buildDocs m (k + 1) rest).length := by
          have := h
          simp only [buildDocs, List.length_cons] at this
          simpa using this
        have := ih (k + 1) j h'
        simp only [buildDocs, List.get] at this ⊢
        refine ⟨?_, this.2.1, this.2.2⟩
        rw [this.1]
        omega

/-- C9: every document produced by `Pattern_extract` carries `order`
equal to its 1-based rank (hence orders are strictly increasing from 1),
and is typed Answerer/Management exactly when its trimmed speaker is a
case-sensitive exact member of the management list, else
Questioner/Investor. -/
theorem pattern_extract_order_and_classification (docs : List Page)
    (management : List (List Char)) (i : Nat)
    (h : i < (Pattern_extract docs management).length) :
    ((Pattern_extract docs management).get ⟨i, h⟩).order = i + 1 ∧
    (((Pattern_extract docs management).get ⟨i, h⟩).speaker ∈ management →
      ((Pattern_extract docs management).get ⟨i, h⟩).type = "Answerer" ∧
      ((Pattern_extract docs management).get ⟨i, h⟩).role = "Management") ∧
    (((Pattern_extract docs management).get ⟨i, h⟩).speaker ∉ management →
      ((Pattern_extract docs management).get ⟨i, h⟩).type = "Questioner" ∧
      ((Pattern_extract docs management).get ⟨i, h⟩).role = "Investor") := by
  have t := buildDocs_get management
    (dialogueFindall (conversationText (joinedText docs))) 1 i h
  have h1 : ((Pattern_extract docs management).get ⟨i, h⟩).order = 1 + i := t.1
  refine ⟨?_, t.2.1, t.2.2⟩
  rw [h1]
  omega

/-- Witness for C9: on a concrete two-speaker transcript, the first turn
(a management member) gets order 1 with type Answerer/Management and the
second (not in the list) gets order 2 with type Questioner/Investor. -/
theorem pattern_extract_order_witness :
    ((Pattern_extract [Page.mk "xx John Smith: hi all Jane Roe: thanks".toList]
        ["John Smith".toList]).get ⟨0, by decide⟩).order = 1 ∧
    ((Pattern_extract [Page.mk "xx John Smith: hi all Jane Roe: thanks".toList]
        ["John Smith".toList]).get ⟨0, by decide⟩).type = "Answerer" ∧
    ((Pattern_extract [Page.mk "xx John Smith: hi all Jane Roe: thanks".toList]
        ["John Smith".toList]).get ⟨1, by decide⟩).order = 2 ∧
    ((Pattern_extract [Page.mk "xx John Smith: hi all Jane Roe: thanks".toList]
        ["John Smith".toList]).get ⟨1, by decide⟩).role = "Investor" := by
  have t0 := pattern_extract_order_and_classification
    [Page.mk "xx John Smith: hi all Jane Roe: thanks".toList]
    ["John Smith".toList] 0 (by decide)
  have t1 := pattern_extract_order_and_classification
    [Page.mk "xx John Smith: hi all Jane Roe: thanks".toList]
    ["John Smith".toList] 1 (by decide)
  exact ⟨t0.1, (t0.2.1 (by decide)).1, t1.1, (t1.2.2 (by decide)).2⟩

/-- C6: under `split_docs_into_sections`, every input utterance whose
trimmed, lowercased speaker is not "moderator" appears (section tag
erased) in exactly one of the two outputs — its occurrences are jointly
preserved — and every moderator utterance appears in neither. -/
theorem split_moderator_partition (docs : List Doc) (d : Doc) :
    ((split_docs_into_sections docs).1.map eraseSection).count d
      + ((split_docs_into_sections docs).2.map eraseSection).count d
    = if lowerStr (stripChars d.speaker) = "moderator".toList then 0
      else (docs.map eraseSection).count d := by
  have h := splitGo_count d docs "Remarks" (Or.inl rfl)
  rw [split_docs_into_sections]
  rw [h, keptSpeaker]
  by_cases hm : lowerStr (stripChars d.speaker) = "moderator".toList
  · simp [hm]
  · simp [hm]

end ConvAnalyst
